import Mathlib

/-!
# Verification of `ACL_check.py` (asa_utilities)

Shallow embedding of the matching core of `ACL_check.py`: a Cisco ASA
configuration is a tree of text lines; the script matches `object network`
blocks, `object-group network` blocks and `access-list` lines against an
IPv4 query.

Conventions:
* Python exceptions are modelled with `Except`; an uncaught exception is an
  `.error` value that propagates.
* `ciscoconfparse.ccp_util.IPv4Obj` (an external library, not part of this
  repository) is modelled by `IPv4Obj` / `parseIPv4Obj` / `ipv4In` below,
  following its documented behaviour: it accepts `a.b.c.d`, `a.b.c.d/len`,
  `a.b.c.d/m.m.m.m` and `a.b.c.d m.m.m.m` forms, normalizes to a network
  (host bits masked off, a bare host becoming a /32), reads the mask
  position as a netmask or, failing that, as a hostmask (wildcard mask),
  and `x in y` holds iff `y`'s address range includes `x`'s address range.
* The script's regular expressions are translated into explicit scanners
  over character lists, reproducing the anchoring, greediness and
  backtracking of the original patterns.
-/

/-! ## IPv4 addresses: model of `ciscoconfparse.ccp_util.IPv4Obj` -/

/-- An IPv4 network: network address (host bits already masked off) and
prefix length.  This is the state `IPv4Obj` keeps that is observable through
its containment operator. -/
structure IPv4Obj where
  net : Nat
  plen : Nat
deriving DecidableEq

/-- Broadcast (highest) address of a network. -/
def IPv4Obj.bcast (o : IPv4Obj) : Nat := o.net + 2 ^ (32 - o.plen) - 1

/-- Python `a in b` on two `IPv4Obj`s: `b.__contains__(a)`, i.e. the range of
`b` includes the range of `a`. -/
def ipv4In (a b : IPv4Obj) : Bool :=
  decide (b.net ≤ a.net) && decide (a.bcast ≤ b.bcast)

/-- `[0-9]`. -/
def isDig (c : Char) : Bool := '0' ≤ c && c ≤ '9'

/-- Numeric value of a digit character. -/
def digVal (c : Char) : Nat := c.toNat - '0'.toNat

/-- Decimal value of a digit string (callers check digit-ness separately). -/
def digitsVal (cs : List Char) : Nat :=
  cs.foldl (fun a c => 10 * a + digVal c) 0

/-- Parse a nonempty all-digit string, as Python `int` does on octet text. -/
def parseNatDigits (cs : List Char) : Option Nat :=
  if cs ≠ [] ∧ cs.all isDig then some (digitsVal cs) else none

/-- One dotted-quad octet, as `ipaddress` accepts it: at most three digits,
value at most 255 (leading zeros tolerated, as in the Python used by the
script). -/
def parseOctetStr (cs : List Char) : Option Nat :=
  if cs.length ≤ 3 then
    match parseNatDigits cs with
    | some n => if n ≤ 255 then some n else none
    | none => none
  else none

/-- Split a character list on a separator character (like `str.split(sep)`). -/
def splitOnChar (sep : Char) : List Char → List (List Char)
  | [] => [[]]
  | c :: rest =>
    match splitOnChar sep rest with
    | [] => if c = sep then [[], []] else [[c]]
    | g :: gs => if c = sep then [] :: g :: gs else (c :: g) :: gs

/-- Parse `a.b.c.d` into its 32-bit value. -/
def parseQuadAddr (cs : List Char) : Option Nat :=
  match splitOnChar '.' cs with
  | [a, b, c, d] =>
    match parseOctetStr a, parseOctetStr b, parseOctetStr c, parseOctetStr d with
    | some va, some vb, some vc, some vd =>
      some (((va * 256 + vb) * 256 + vc) * 256 + vd)
    | _, _, _, _ => none
  | _ => none

/-- The 32-bit value of the netmask with `p` leading one bits. -/
def maskOfLen (p : Nat) : Nat := 2 ^ 32 - 2 ^ (32 - p)

/-- Recover a prefix length from a mask value, as `ipaddress`'s
`_make_netmask` does for a dotted-decimal mask: first try it as a netmask
(contiguous leading ones); failing that, try its complement — a hostmask
(wildcard mask) such as `0.255.255.255` also denotes `/8`.  A value that
is neither (e.g. `255.0.255.0`) fails. -/
def maskToLen (m : Nat) : Option Nat :=
  match (List.range 33).find? (fun p => maskOfLen p = m) with
  | some p => some p
  | none => (List.range 33).find? (fun p => maskOfLen p = 2 ^ 32 - 1 - m)

/-- Clear the host bits of `a` under prefix length `p` (`strict=False`
normalization of `IPv4Network`). -/
def maskDown (a p : Nat) : Nat := a - a % 2 ^ (32 - p)

/-- Model of the `IPv4Obj` constructor.  `none` models the constructor
raising (Python `ValueError`); `some` carries the normalized network.
Accepted shapes: `addr`, `addr/len`, `addr/mask`, `addr mask`. -/
def parseIPv4Obj (s : String) : Option IPv4Obj :=
  let cs := s.data
  if cs.contains ' ' then
    match splitOnChar ' ' cs with
    | [a, m] =>
      match parseQuadAddr a, (parseQuadAddr m).bind maskToLen with
      | some va, some p => some ⟨maskDown va p, p⟩
      | _, _ => none
    | _ => none
  else if cs.contains '/' then
    match splitOnChar '/' cs with
    | [a, r] =>
      match parseQuadAddr a with
      | none => none
      | some va =>
        match parseNatDigits r with
        | some p => if p ≤ 32 then some ⟨maskDown va p, p⟩ else none
        | none =>
          match (parseQuadAddr r).bind maskToLen with
          | some p => some ⟨maskDown va p, p⟩
          | none => none
    | _ => none
  else
    match parseQuadAddr cs with
    | some va => some ⟨va, 32⟩
    | none => none

/-- The bidirectional containment policy used in `match_network_objects`
(`ACL_check.py:161-164`): `addr in subnet or subnet in addr`.
`contains_or_is_contained a b` is true iff `a` covers `b` or `b` covers `a`. -/
def contains_or_is_contained (a b : IPv4Obj) : Bool :=
  ipv4In b a || ipv4In a b

/-! ## Scanners for the free-text regular expressions

`RE_BARE_ACL_HOST` and `RE_BARE_SUBNET` are scanned with `findall`; the
octet sub-pattern is `25[0-5]|2[0-4][0-9]|[01]?[0-9][0-9]?`.  The models
below enumerate octet candidates in the regex engine's priority order and
backtrack through them, which reproduces the engine's leftmost, greedy,
non-overlapping scan on these patterns. -/

/-- Candidates of the octet alternation at the head of `cs`, as
`(matched, rest)` pairs in regex priority order: `25[0-5]`, then
`2[0-4][0-9]`, then `[01]?[0-9][0-9]?` (whose own backtracking order is
three chars, two with the leading `[01]`, two without it, one).  Arranged
by the available length of `cs`. -/
def octetCands (cs : List Char) : List (List Char × List Char) :=
  match cs with
  | c0 :: c1 :: c2 :: rest =>
    (if c0 = '2' && (c1 = '5' && ('0' ≤ c2 && c2 ≤ '5')) then [([c0, c1, c2], rest)] else []) ++
    (if c0 = '2' && (('0' ≤ c1 && c1 ≤ '4') && isDig c2) then [([c0, c1, c2], rest)] else []) ++
    (if (c0 = '0' || c0 = '1') && (isDig c1 && isDig c2) then [([c0, c1, c2], rest)] else []) ++
    (if (c0 = '0' || c0 = '1') && isDig c1 then [([c0, c1], c2 :: rest)] else []) ++
    (if isDig c0 && isDig c1 then [([c0, c1], c2 :: rest)] else []) ++
    (if isDig c0 then [([c0], c1 :: c2 :: rest)] else [])
  | [c0, c1] =>
    (if (c0 = '0' || c0 = '1') && isDig c1 then [([c0, c1], [])] else []) ++
    (if isDig c0 && isDig c1 then [([c0, c1], [])] else []) ++
    (if isDig c0 then [([c0], [c1])] else [])
  | [c0] => if isDig c0 then [([c0], [])] else []
  | [] => []

/-- First candidate accepted by the continuation `f` (backtracking). -/
def firstSome : List α → (α → Option β) → Option β
  | [], _ => none
  | a :: as, f =>
    match f a with
    | some b => some b
    | none => firstSome as f

/-- Match `k` dot-separated octets (`(octet\.){k-1}octet`) at the head of
`cs`, returning the matched characters and the remainder. -/
def quadFrom : Nat → List Char → Option (List Char × List Char)
  | 0, _ => none
  | 1, cs => firstSome (octetCands cs) (fun p => some p)
  | k + 2, cs =>
    firstSome (octetCands cs) (fun p =>
      match p.2 with
      | c :: rest2 =>
        if c = '.' then
          match quadFrom (k + 1) rest2 with
          | some (q, rem) => some (p.1 ++ '.' :: q, rem)
          | none => none
        else none
      | [] => none)

/-- Match a full dotted quad (the octet pattern repeated four times). -/
def matchQuad (cs : List Char) : Option (List Char × List Char) :=
  quadFrom 4 cs

/-- Consume a literal prefix, returning the remainder. -/
def afterLit : List Char → List Char → Option (List Char)
  | [], cs => some cs
  | _ :: _, [] => none
  | l :: ls, c :: cs => if c = l then afterLit ls cs else none

/-- One attempt of `RE_BARE_ACL_HOST` (`host <quad>`, capturing the quad)
at the current position. -/
def matchBareHost (cs : List Char) : Option (String × List Char) :=
  match afterLit "host ".data cs with
  | none => none
  | some rest =>
    match matchQuad rest with
    | some (q, rem) => some (String.mk q, rem)
    | none => none

/-- One attempt of `RE_BARE_SUBNET` (`<quad> <quad>`, whole match returned)
at the current position. -/
def matchBareSubnet (cs : List Char) : Option (String × List Char) :=
  match matchQuad cs with
  | some (q1, c :: rest) =>
    if c = ' ' then
      match matchQuad rest with
      | some (q2, rem) => some (String.mk (q1 ++ ' ' :: q2), rem)
      | none => none
    else none
  | _ => none

/-- `re.findall` driver: try a match at each position, emit it and resume
after its end (matches here always consume at least one character, so a
fuel of the input length suffices). -/
def scanAux (f : List Char → Option (String × List Char)) : Nat → List Char → List String
  | 0, _ => []
  | _ + 1, [] => []
  | fuel + 1, c :: rest =>
    match f (c :: rest) with
    | some (cap, rem) => cap :: scanAux f fuel rem
    | none => scanAux f fuel rest

/-- `RE_BARE_ACL_HOST.findall(t)`. -/
def bareHostScan (t : String) : List String :=
  scanAux matchBareHost t.length t.data

/-- `RE_BARE_SUBNET.findall(t)`. -/
def bareSubnetScan (t : String) : List String :=
  scanAux matchBareSubnet t.length t.data

/-! ## Anchored line patterns -/

/-- Shared shape of the anchored patterns `^<literal>(\S+)$`: a literal
head followed by one captured non-whitespace token ending the line. -/
def reCapToken (head : String) (t : String) : Option String :=
  match afterLit head.data t.data with
  | none => none
  | some rest =>
    if rest ≠ [] ∧ rest.all (fun x => ¬ x.isWhitespace) then some (String.mk rest)
    else none

/-- `RE_OBJECT_NETWORK = '^object network (\S+)$'`. -/
def RE_OBJECT_NETWORK (t : String) : Option String :=
  reCapToken "object network " t

/-- `RE_OBJECT_GROUP = '^object-group network (\S+)$'`. -/
def RE_OBJECT_GROUP (t : String) : Option String :=
  reCapToken "object-group network " t

/-- `RE_HOST = '^ host\s(\S+)$'`. -/
def RE_HOST (t : String) : Option String :=
  match afterLit " host".data t.data with
  | none => none
  | some rest =>
    match rest with
    | c :: rest2 =>
      if c.isWhitespace ∧ rest2 ≠ [] ∧ rest2.all (fun x => ¬ x.isWhitespace) then
        some (String.mk rest2)
      else none
    | [] => none

/-- `RE_SUBNET = '^ subnet ([\S ]+)$'` (the capture may contain spaces but
no other whitespace). -/
def RE_SUBNET (t : String) : Option String :=
  match afterLit " subnet ".data t.data with
  | none => none
  | some rest =>
    if rest ≠ [] ∧ rest.all (fun x => x = ' ' ∨ ¬ x.isWhitespace) then some (String.mk rest)
    else none

/-- `RE_NETWORK_OBJECT_HOST = '^ network-object host (\S+)$'`. -/
def RE_NETWORK_OBJECT_HOST (t : String) : Option String :=
  reCapToken " network-object host " t

/-- `RE_NETWORK_OBJECT_OBJECT = '^ network-object object (\S+)$'`. -/
def RE_NETWORK_OBJECT_OBJECT (t : String) : Option String :=
  reCapToken " network-object object " t

/-- Python `needle in haystack` on strings (substring test). -/
def strIn (needle haystack : String) : Bool :=
  decide (needle.data <:+: haystack.data)

/-- `line.re_match(regex)` with the library's default `default=''`. -/
def reMatchDefault (f : String → Option String) (t : String) : String :=
  (f t).getD ""

/-! ## Configuration model

`ciscoconfparse` presents the parsed configuration as line objects with
`text` and ordered `children`; `find_objects(p)` returns, in file order,
every line object whose text the pattern `p` matches (`re.search`). -/

/-- A parsed configuration line: raw text and ordered children. -/
inductive CfgLine where
  | mk (text : String) (children : List CfgLine)

/-- Raw text of a line. -/
def CfgLine.text : CfgLine → String
  | .mk t _ => t

/-- Ordered children of a line. -/
def CfgLine.children : CfgLine → List CfgLine
  | .mk _ c => c

mutual

/-- A line followed by its descendants, in file order. -/
def flattenOne : CfgLine → List CfgLine
  | .mk t ch => .mk t ch :: flattenMany ch

/-- All lines of a forest, in file order. -/
def flattenMany : List CfgLine → List CfgLine
  | [] => []
  | l :: ls => flattenOne l ++ flattenMany ls

end

/-- `config.find_objects(p)`: every line (at any depth, in file order)
whose text satisfies the pattern predicate. -/
def findObjects (cfg : List CfgLine) (p : String → Bool) : List CfgLine :=
  (flattenMany cfg).filter (fun l => p l.text)

/-! ## `match_network_objects` (ACL_check.py:141-168) -/

/-- Address text of an object child: the `host` pattern is tried first,
the `subnet` pattern as fallback (ACL_check.py:152-155). -/
def objChildIp (child : CfgLine) : Option String :=
  match RE_HOST child.text with
  | some s => some s
  | none => RE_SUBNET child.text

/-- Scan an object's children (ACL_check.py:150-167): on the first child
whose address is bidirectionally contained w.r.t. the query, stop with
`true`; an address text the `IPv4Obj` constructor rejects raises
(`.error`, the call at line 160 is unguarded). -/
def matchObjChildren (subnet : IPv4Obj) : List CfgLine → Except Unit Bool
  | [] => .ok false
  | child :: rest =>
    match objChildIp child with
    | none => matchObjChildren subnet rest
    | some ip_str =>
      match parseIPv4Obj ip_str with
      | none => .error ()
      | some addr =>
        if ipv4In addr subnet then .ok true
        else if ipv4In subnet addr then .ok true
        else matchObjChildren subnet rest

/-- `match_network_objects(subnet, network_objects)`: the objects whose
child scan succeeds, in input order. -/
def match_network_objects (subnet : IPv4Obj) : List CfgLine → Except Unit (List CfgLine)
  | [] => .ok []
  | obj :: rest =>
    match matchObjChildren subnet obj.children with
    | .error e => .error e
    | .ok b =>
      match match_network_objects subnet rest with
      | .error e => .error e
      | .ok r => .ok (if b then obj :: r else r)

/-! ## `match_network_object_groups` (ACL_check.py:170-207) -/

/-- `is_substring_of_obj_list(obj_name, matched_objects)`
(ACL_check.py:134-139): is `obj_name` a substring of the text of some
already-matched object line? -/
def is_substring_of_obj_list (obj_name : String) (matched_objects : List CfgLine) : Bool :=
  matched_objects.any (fun obj => strIn obj_name obj.text)

/-- Decision for one group child (ACL_check.py:178-193): a
`network-object object <name>` child matches via the substring test; a
`network-object host <addr>` child is parsed (unguarded, line 190) and
matches when the query covers its address (`addr in subnet` only). -/
def groupChildStep (subnet : IPv4Obj) (matched_objects : List CfgLine) (child : CfgLine) :
    Except Unit Bool :=
  match RE_NETWORK_OBJECT_OBJECT child.text with
  | some network_object => .ok (is_substring_of_obj_list network_object matched_objects)
  | none =>
    match RE_NETWORK_OBJECT_HOST child.text with
    | none => .ok false
    | some ip_str =>
      match parseIPv4Obj ip_str with
      | none => .error ()
      | some addr => .ok (ipv4In addr subnet)

/-- Accumulate the matching children of one group, in order. -/
def groupChildrenKept (subnet : IPv4Obj) (matched_objects : List CfgLine) :
    List CfgLine → Except Unit (List CfgLine)
  | [] => .ok []
  | c :: rest =>
    match groupChildStep subnet matched_objects c with
    | .error e => .error e
    | .ok b =>
      match groupChildrenKept subnet matched_objects rest with
      | .error e => .error e
      | .ok r => .ok (if b then c :: r else r)

/-- `match_network_object_groups(subnet, object_groups, matched_objects)`:
for each group with at least one matching child, emit a freshly built
parent line carrying only those children (ACL_check.py:195-207). -/
def match_network_object_groups (subnet : IPv4Obj) (object_groups : List CfgLine)
    (matched_objects : List CfgLine) : Except Unit (List CfgLine) :=
  match object_groups with
  | [] => .ok []
  | group :: rest =>
    match groupChildrenKept subnet matched_objects group.children with
    | .error e => .error e
    | .ok children =>
      match match_network_object_groups subnet rest matched_objects with
      | .error e => .error e
      | .ok r => .ok (if children.isEmpty then r else CfgLine.mk group.text children :: r)

/-! ## Module-level script (ACL_check.py:88-271)

The module body binds `subnet`, `source` and `dest` (possibly to `None`),
runs each stage under `if` guards, and finally scans the access-list
lines using the *general* query's intermediates unconditionally.  A local
that a run never assigned is modelled as `none`; evaluating it where
Python would raise `NameError` yields `.error .nameError`.  Likewise
`x in None` raises `TypeError`. -/

/-- Errors the module-level code can raise. -/
inductive RunErr where
  | invalidAddress
  | nameError
  | parseError
  | typeError
deriving DecidableEq

/-- Evaluate a local variable that is only conditionally assigned. -/
def need : Option α → Except RunErr α
  | some a => .ok a
  | none => .error .nameError

/-- Parse one of the `-i`/`-s`/`-d` arguments (ACL_check.py:92-113): a bad
address string is fatal (`InvalidAddress`). -/
def parseQueryOpt : Option String → Except RunErr (Option IPv4Obj)
  | none => .ok none
  | some s =>
    match parseIPv4Obj s with
    | none => .error .invalidAddress
    | some q => .ok (some q)

/-- An exception escaping the matching helpers. -/
def liftParse : Except Unit α → Except RunErr α
  | .ok a => .ok a
  | .error _ => .error .parseError

/-- ACL condition 3 (ACL_check.py:256-260): scan the `host <quad>`
captures in order; each is fed to the unguarded `IPv4Obj` constructor and
tested with `IPv4Obj(IP) in subnet`; stop at the first success. -/
def cond3Go (subnet? : Option IPv4Obj) : List String → Except RunErr Bool
  | [] => .ok false
  | ip :: rest =>
    match parseIPv4Obj ip with
    | none => .error .parseError
    | some addr =>
      match subnet? with
      | none => .error .typeError
      | some q => if ipv4In addr q then .ok true else cond3Go subnet? rest

/-- ACL condition 3 on a line's text. -/
def aclCond3 (subnet? : Option IPv4Obj) (t : String) : Except RunErr Bool :=
  cond3Go subnet? (bareHostScan t)

/-- ACL condition 4 (ACL_check.py:262-271): scan the bare `<quad> <quad>`
captures; the body is wrapped in `try/except: pass`, so any exception
(parse failure, or `in None`) just skips the candidate. -/
def cond4Go (subnet? : Option IPv4Obj) : List String → Bool
  | [] => false
  | ip :: rest =>
    match parseIPv4Obj ip with
    | none => cond4Go subnet? rest
    | some addr =>
      match subnet? with
      | none => cond4Go subnet? rest
      | some q => if ipv4In addr q then true else cond4Go subnet? rest

/-- ACL condition 4 on a line's text. -/
def aclCond4 (subnet? : Option IPv4Obj) (t : String) : Bool :=
  cond4Go subnet? (bareSubnetScan t)

/-- ACL condition 1 (ACL_check.py:244-248): some matched object's captured
name occurs in the line's text. -/
def aclCond1 (matched_objects : List CfgLine) (t : String) : Bool :=
  matched_objects.any (fun obj => strIn (reMatchDefault RE_OBJECT_NETWORK obj.text) t)

/-- ACL condition 2 (ACL_check.py:250-254): some matched group's captured
name occurs in the line's text. -/
def aclCond2 (matched_groups : List CfgLine) (t : String) : Bool :=
  matched_groups.any (fun g => strIn (reMatchDefault RE_OBJECT_GROUP g.text) t)

/-- Processing of one access-list line (ACL_check.py:242-271).  Each of
the four conditions runs its own scan with its own `break`, appending the
line on success; nothing skips the remaining conditions, so one line can
be appended up to four times.  Conditions 1 and 2 begin by evaluating
`matched_objects` resp. `matched_groups`, which raises `NameError` when
the `-i` pipeline never ran. -/
def aclLineE (subnet? : Option IPv4Obj) (mo? mg? : Option (List CfgLine)) (line : CfgLine) :
    Except RunErr (List CfgLine) :=
  match need mo? with
  | .error e => .error e
  | .ok mo =>
    let h1 : List CfgLine := if aclCond1 mo line.text then [line] else []
    match need mg? with
    | .error e => .error e
    | .ok mg =>
      let h2 : List CfgLine := if aclCond2 mg line.text then [line] else []
      match aclCond3 subnet? line.text with
      | .error e => .error e
      | .ok b3 =>
        let h3 : List CfgLine := if b3 then [line] else []
        let h4 : List CfgLine := if aclCond4 subnet? line.text then [line] else []
        .ok (h1 ++ h2 ++ h3 ++ h4)

/-- The `for line in ACL` loop building `ACL_matches` (ACL_check.py:241-271). -/
def aclStage (subnet? : Option IPv4Obj) (mo? mg? : Option (List CfgLine)) :
    List CfgLine → Except RunErr (List CfgLine)
  | [] => .ok []
  | line :: rest =>
    match aclLineE subnet? mo? mg? line with
    | .error e => .error e
    | .ok h =>
      match aclStage subnet? mo? mg? rest with
      | .error e => .error e
      | .ok r => .ok (h ++ r)

/-- One guarded object-matching stage (ACL_check.py:216-221). -/
def stageObjects (q? : Option IPv4Obj) (net_objs : List CfgLine) :
    Except RunErr (Option (List CfgLine)) :=
  match q? with
  | none => .ok none
  | some q =>
    match match_network_objects q net_objs with
    | .ok r => .ok (some r)
    | .error _ => .error .parseError

/-- One guarded group-matching stage (ACL_check.py:230-233); it first
evaluates the corresponding matched-objects local. -/
def stageGroups (q? : Option IPv4Obj) (mo? : Option (List CfgLine))
    (object_groups : List CfgLine) : Except RunErr (Option (List CfgLine)) :=
  match q? with
  | none => .ok none
  | some q =>
    match need mo? with
    | .error e => .error e
    | .ok mo =>
      match match_network_object_groups q object_groups mo with
      | .ok r => .ok (some r)
      | .error _ => .error .parseError

/-- The destination group stage (ACL_check.py:234-235): its right-hand
side reads `dest_matched_groups`, a name assigned nowhere before this
statement, so any run with a `-d` query raises `NameError` here. -/
def stageDestGroups (q? : Option IPv4Obj) : Except RunErr (Option (List CfgLine)) :=
  match q? with
  | none => .ok none
  | some _ => .error .nameError

/-- Everything the module-level run binds that later code or the report
reads. -/
structure ScriptResult where
  matched_objects : Option (List CfgLine)
  matched_groups : Option (List CfgLine)
  source_matched_objects : Option (List CfgLine)
  source_matched_groups : Option (List CfgLine)
  dest_matched_objects : Option (List CfgLine)
  ACL_matches : List CfgLine

/-- The module-level run of `ACL_check.py` for a loaded configuration and
the `-i`/`-s`/`-d` argument strings, through the construction of
`ACL_matches` (the final printing is presentation only). -/
def runScript (cfg : List CfgLine) (ip source dest : Option String) :
    Except RunErr ScriptResult :=
  match parseQueryOpt ip with
  | .error e => .error e
  | .ok subnet =>
  match parseQueryOpt source with
  | .error e => .error e
  | .ok sourceQ =>
  match parseQueryOpt dest with
  | .error e => .error e
  | .ok destQ =>
  let net_objs := findObjects cfg (fun t => (RE_OBJECT_NETWORK t).isSome)
  match stageObjects subnet net_objs with
  | .error e => .error e
  | .ok matched_objects =>
  match stageObjects sourceQ net_objs with
  | .error e => .error e
  | .ok source_matched_objects =>
  match stageObjects destQ net_objs with
  | .error e => .error e
  | .ok dest_matched_objects =>
  let object_groups := findObjects cfg (fun t => (RE_OBJECT_GROUP t).isSome)
  match stageGroups subnet matched_objects object_groups with
  | .error e => .error e
  | .ok matched_groups =>
  match stageGroups sourceQ source_matched_objects object_groups with
  | .error e => .error e
  | .ok source_matched_groups =>
  match stageDestGroups destQ with
  | .error e => .error e
  | .ok _dest_matched_groups =>
  let ACL := findObjects cfg (fun t => (afterLit "access-list ".data t.data).isSome)
  match aclStage subnet matched_objects matched_groups ACL with
  | .error e => .error e
  | .ok ACL_matches =>
    .ok ⟨matched_objects, matched_groups, source_matched_objects,
      source_matched_groups, dest_matched_objects, ACL_matches⟩

/-! ## Total (exception-free) match predicates

These express, per candidate, the value the scanning code computes when it
does not raise; the theorems below relate the exception-raising
translations to them. -/

/-- Does one object child cover the query (either direction, as at
ACL_check.py:161-164)?  A child whose address text does not parse counts
as not covering. -/
def childCoversQuery (subnet : IPv4Obj) (child : CfgLine) : Bool :=
  match objChildIp child with
  | none => false
  | some s =>
    match parseIPv4Obj s with
    | none => false
    | some addr => contains_or_is_contained subnet addr

/-- Does one group child match (ACL_check.py:178-193)?  A reference child
matches via the substring test; an inline-host child matches when the query
covers its address (one direction only, line 191). -/
def groupChildMatches (subnet : IPv4Obj) (matched_objects : List CfgLine) (child : CfgLine) :
    Bool :=
  match RE_NETWORK_OBJECT_OBJECT child.text with
  | some n => is_substring_of_obj_list n matched_objects
  | none =>
    match RE_NETWORK_OBJECT_HOST child.text with
    | none => false
    | some s =>
      match parseIPv4Obj s with
      | none => false
      | some addr => ipv4In addr subnet

/-- A configuration whose object children and group host children all
carry parseable address texts (the free-form access-list texts stay
unconstrained). -/
def cfgWellFormed (cfg : List CfgLine) : Bool :=
  ((findObjects cfg (fun t => (RE_OBJECT_NETWORK t).isSome)).all fun o =>
    o.children.all fun c =>
      match objChildIp c with
      | none => true
      | some s => (parseIPv4Obj s).isSome) &&
  ((findObjects cfg (fun t => (RE_OBJECT_GROUP t).isSome)).all fun g =>
    g.children.all fun c =>
      match RE_NETWORK_OBJECT_OBJECT c.text with
      | some _ => true
      | none =>
        match RE_NETWORK_OBJECT_HOST c.text with
        | none => true
        | some s => (parseIPv4Obj s).isSome)

/-- The language of the octet sub-pattern
`25[0-5]|2[0-4][0-9]|[01]?[0-9][0-9]?`, arranged by string length. -/
def isOctetStr (s : List Char) : Bool :=
  match s with
  | [a] => isDig a
  | [a, b] => ((a = '0' || a = '1') && isDig b) || (isDig a && isDig b)
  | [a, b, c] =>
    (a = '2' && (b = '5' && ('0' ≤ c && c ≤ '5'))) ||
    (a = '2' && (('0' ≤ b && b ≤ '4') && isDig c)) ||
    ((a = '0' || a = '1') && (isDig b && isDig c))
  | _ => false

/-- A character a dotted quad may contain. -/
def isDigOrDot (c : Char) : Bool := isDig c || c = '.'

/-- The network denoted by an `addr mask` pair: the first address masked
down by the prefix the second address encodes; `none` when the second
address is neither a contiguous netmask nor a hostmask (wildcard mask).
(Statement vocabulary for the bare-subnet condition: this is what
`IPv4Obj` makes of the captured pair.) -/
def pairAsMaskedNetwork (cs1 cs2 : List Char) : Option IPv4Obj :=
  match parseQuadAddr cs1, (parseQuadAddr cs2).bind maskToLen with
  | some va, some p => some ⟨maskDown va p, p⟩
  | _, _ => none

/-! ## Heap model of the derived-group construction (ACL_check.py:195-207)

To state the frame property (the original hierarchy is not mutated) the
line objects are given identities: a store is a list of nodes and a line's
identity is its index.  The group stage is replayed against the store. -/

/-- A stored line object: its text and the identities of its children. -/
structure LineNode where
  text : String
  childIds : List Nat
deriving DecidableEq

/-- Modelled from the spec: `IOSCfgLine(text)` (ciscoconfparse, not part of
this repository) creates a brand-new line object with no children; per the
spec the derived group is "a derived view, not a mutation of the original
line tree".  Allocation appends a fresh node and returns its identity. -/
def allocNode (store : List LineNode) (text : String) : List LineNode × Nat :=
  (store ++ [⟨text, []⟩], store.length)

/-- Modelled from the spec: `parent.add_child(child)` appends the child's
identity to the parent's ordered children and touches no other node. -/
def add_child (store : List LineNode) (parentId childId : Nat) : List LineNode :=
  match store[parentId]? with
  | none => store
  | some n => store.set parentId ⟨n.text, n.childIds ++ [childId]⟩

/-- Child decision replayed against the store (the decision itself only
reads the child's text, cf. `groupChildStep`). -/
def keptChildIds (subnet : IPv4Obj) (matched_objects : List CfgLine) (store : List LineNode) :
    List Nat → Except Unit (List Nat)
  | [] => .ok []
  | cid :: rest =>
    match store[cid]? with
    | none => keptChildIds subnet matched_objects store rest
    | some c =>
      match groupChildStep subnet matched_objects (CfgLine.mk c.text []) with
      | .error e => .error e
      | .ok b =>
        match keptChildIds subnet matched_objects store rest with
        | .error e => .error e
        | .ok r => .ok (if b then cid :: r else r)

/-- The group-matching loop against the store: for each group with
matching children, allocate a fresh parent (`IOSCfgLine(group.text)`), give
it the kept children (`add_child`), and record it. -/
def matchGroupsSt (subnet : IPv4Obj) (matched_objects : List CfgLine) :
    List LineNode → List Nat → Except Unit (List LineNode × List Nat)
  | store, [] => .ok (store, [])
  | store, gid :: rest =>
    match store[gid]? with
    | none => matchGroupsSt subnet matched_objects store rest
    | some g =>
      match keptChildIds subnet matched_objects store g.childIds with
      | .error e => .error e
      | .ok kept =>
        if kept.isEmpty then matchGroupsSt subnet matched_objects store rest
        else
          match allocNode store g.text with
          | (store1, pid) =>
            let store2 := kept.foldl (fun st cid => add_child st pid cid) store1
            match matchGroupsSt subnet matched_objects store2 rest with
            | .error e => .error e
            | .ok (store3, ids) => .ok (store3, pid :: ids)

/-! ## Concrete inputs used by the witnesses and counterexamples -/

/-- `10.0.0.5/32`. -/
def qHost5 : IPv4Obj := ⟨167772165, 32⟩

/-- `10.0.0.3/32`. -/
def qHost3 : IPv4Obj := ⟨167772163, 32⟩

/-- `object network WEB { host 10.0.0.5 }`. -/
def exObjWeb : CfgLine := .mk "object network WEB" [.mk " host 10.0.0.5" []]

/-- `object network OTHER { host 192.168.1.1 }`. -/
def exObjOther : CfgLine := .mk "object network OTHER" [.mk " host 192.168.1.1" []]

/-- An object child with an unparseable address token. -/
def exBadChild : CfgLine := .mk " host garbage" []

/-- An access-list line referencing `WEB` and containing `host 10.0.0.5`. -/
def exAclDup : CfgLine := .mk "access-list A permit ip host 10.0.0.5 object WEB" []

/-- Configuration for the duplicate-emission counterexample. -/
def exCfgDup : List CfgLine := [exObjWeb, exAclDup]

/-- A group whose single child is `network-object host 10.0.0.0/8`. -/
def exGrpWide : CfgLine := .mk "object-group network G" [.mk " network-object host 10.0.0.0/8" []]

/-- The access-list line of the bare-subnet counterexample. -/
def exAclPair : CfgLine := .mk "access-list X permit ip 10.0.0.3 255.255.255.0 any" []

/-- Configuration with a malformed object child (aborts the run). -/
def exCfgBadObj : List CfgLine := [.mk "object network X" [.mk " host nope" []]]

/-- Configuration whose access-list text contains an address-shaped pair
with a non-contiguous mask (tolerated by condition 4). -/
def exCfgTolerant : List CfgLine :=
  [exObjWeb, .mk "access-list A permit ip 10.0.0.0 255.0.255.0 any" []]

/-- A one-line access-list configuration. -/
def exCfgAclOnly : List CfgLine := [.mk "access-list A permit ip any any" []]

/-- Store for the frame witness: a group node (id 0) with two children
(ids 1 and 2), one matching `qHost5` and one not. -/
def exStore : List LineNode :=
  [⟨"object-group network G", [1, 2]⟩,
   ⟨" network-object host 10.0.0.5", []⟩,
   ⟨" network-object host 192.168.1.1", []⟩]

/-- A group with one matching and one non-matching host child. -/
def exGrpGood : CfgLine :=
  .mk "object-group network H"
    [.mk " network-object host 10.0.0.5" [], .mk " network-object host 192.168.1.1" []]

/-- `10.0.0.0/24`. -/
def qNet24 : IPv4Obj := ⟨167772160, 24⟩

/-- An access-list line with a pair that parses to `10.0.0.0/24`. -/
def exAclPair24 : CfgLine := .mk "access-list Y permit ip 10.0.0.0 255.255.255.0 any" []

/-- `10.0.0.0/8`. -/
def qNet8 : IPv4Obj := ⟨167772160, 8⟩

/-- An access-list line whose pair carries a hostmask (wildcard mask):
`IPv4Obj` parses it to `10.0.0.0/8`. -/
def exAclWild : CfgLine := .mk "access-list Z permit ip 10.0.0.0 0.255.255.255 any" []

/-! ## Characterization lemmas for the matchers -/

theorem matchObjChildren_ok (q : IPv4Obj) :
    ∀ (cs : List CfgLine) (b : Bool), matchObjChildren q cs = .ok b →
      b = cs.any (childCoversQuery q) := by
  intro cs
  induction cs with
  | nil => intro b h; simp [matchObjChildren] at h; simp [h.symm]
  | cons c rest ih =>
    intro b h
    simp only [matchObjChildren] at h
    simp only [List.any_cons]
    split at h
    · next h1 => rw [ih b h, childCoversQuery, h1]; simp
    · next s h1 =>
      split at h
      · next h2 => exact absurd h (by simp)
      · next addr h2 =>
        split at h
        · next h3 =>
          cases h
          simp [childCoversQuery, h1, h2, contains_or_is_contained, h3]
        · next h3 =>
          split at h
          · next h4 =>
            cases h
            simp [childCoversQuery, h1, h2, contains_or_is_contained, h4]
          · next h4 =>
            rw [ih b h]
            simp [childCoversQuery, h1, h2, contains_or_is_contained,
              Bool.eq_false_iff.mpr h3, Bool.eq_false_iff.mpr h4]

theorem match_network_objects_ok (q : IPv4Obj) :
    ∀ (objs res : List CfgLine), match_network_objects q objs = .ok res →
      res = objs.filter (fun o => o.children.any (childCoversQuery q)) := by
  intro objs
  induction objs with
  | nil =>
    intro res h
    simp [match_network_objects] at h
    subst h
    rfl
  | cons obj rest ih =>
    intro res h
    simp only [match_network_objects] at h
    split at h
    · exact absurd h (by simp)
    · next b h1 =>
      split at h
      · exact absurd h (by simp)
      · next r h2 =>
        cases h
        rw [matchObjChildren_ok q obj.children b h1]
        rw [ih r h2]
        by_cases hb : obj.children.any (childCoversQuery q) = true
        · simp [List.filter, hb]
        · simp only [Bool.not_eq_true] at hb
          simp [List.filter, hb]

theorem groupChildStep_ok (q : IPv4Obj) (mo : List CfgLine) :
    ∀ (c : CfgLine) (b : Bool), groupChildStep q mo c = .ok b →
      b = groupChildMatches q mo c := by
  intro c b h
  simp only [groupChildStep] at h
  split at h
  · next n h1 => cases h; simp [groupChildMatches, h1]
  · next h1 =>
    split at h
    · next h2 => cases h; simp [groupChildMatches, h1, h2]
    · next s h2 =>
      split at h
      · exact absurd h (by simp)
      · next addr h3 => cases h; simp [groupChildMatches, h1, h2, h3]

theorem groupChildrenKept_ok (q : IPv4Obj) (mo : List CfgLine) :
    ∀ (cs kept : List CfgLine), groupChildrenKept q mo cs = .ok kept →
      kept = cs.filter (groupChildMatches q mo) := by
  intro cs
  induction cs with
  | nil =>
    intro kept h
    simp [groupChildrenKept] at h
    subst h
    rfl
  | cons c rest ih =>
    intro kept h
    simp only [groupChildrenKept] at h
    split at h
    · exact absurd h (by simp)
    · next b h1 =>
      split at h
      · exact absurd h (by simp)
      · next r h2 =>
        cases h
        rw [groupChildStep_ok q mo c b h1]
        rw [ih r h2]
        by_cases hb : groupChildMatches q mo c = true
        · simp [List.filter, hb]
        · simp only [Bool.not_eq_true] at hb
          simp [List.filter, hb]

theorem match_network_object_groups_ok (q : IPv4Obj) (mo : List CfgLine) :
    ∀ (groups res : List CfgLine), match_network_object_groups q groups mo = .ok res →
      res = groups.filterMap (fun g =>
        if (g.children.filter (groupChildMatches q mo)).isEmpty then none
        else some (CfgLine.mk g.text (g.children.filter (groupChildMatches q mo)))) := by
  intro groups
  induction groups with
  | nil =>
    intro res h
    simp [match_network_object_groups] at h
    subst h
    rfl
  | cons g rest ih =>
    intro res h
    simp only [match_network_object_groups] at h
    split at h
    · exact absurd h (by simp)
    · next kept h1 =>
      split at h
      · exact absurd h (by simp)
      · next r h2 =>
        cases h
        rw [groupChildrenKept_ok q mo g.children kept h1]
        rw [ih r h2]
        rw [List.filterMap_cons]
        by_cases hk : (g.children.filter (groupChildMatches q mo)).isEmpty = true
        · rw [if_pos hk, if_pos hk]
        · rw [if_neg hk, if_neg hk]

/-! ## Lemmas on the access-list conditions -/

theorem cond3Go_ok (q : IPv4Obj) :
    ∀ (l : List String) (b : Bool), cond3Go (some q) l = .ok b →
      (b = true ↔ ∃ ip ∈ l, ∃ a, parseIPv4Obj ip = some a ∧ ipv4In a q = true) := by
  intro l
  induction l with
  | nil => intro b h; simp [cond3Go] at h; simp [h.symm]
  | cons ip rest ih =>
    intro b h
    simp only [cond3Go] at h
    split at h
    · exact absurd h (by simp)
    · next addr h1 =>
      split at h
      · next h2 =>
        cases h
        simp only [List.mem_cons, true_iff]
        exact ⟨ip, Or.inl rfl, addr, h1, h2⟩
      · next h2 =>
        rw [ih b h]
        constructor
        · rintro ⟨ip2, hm, a, hp, hin⟩
          exact ⟨ip2, List.mem_cons_of_mem _ hm, a, hp, hin⟩
        · rintro ⟨ip2, hm, a, hp, hin⟩
          rcases List.mem_cons.mp hm with heq | hm2
          · subst heq
            rw [h1] at hp
            cases hp
            exact absurd hin h2
          · exact ⟨ip2, hm2, a, hp, hin⟩

theorem singleton_if_replicate (c : Prop) [Decidable c] (line : CfgLine) :
    (if c then [line] else []) = List.replicate (if c then 1 else 0) line := by
  by_cases h : c <;> simp [h]

theorem aclLineE_ok (q : IPv4Obj) (mo mg : List CfgLine) (line : CfgLine)
    (hits : List CfgLine) (h : aclLineE (some q) (some mo) (some mg) line = .ok hits) :
    ∃ b3, aclCond3 (some q) line.text = .ok b3 ∧
      hits = List.replicate
        ((if aclCond1 mo line.text then 1 else 0) + (if aclCond2 mg line.text then 1 else 0) +
          (if b3 = true then 1 else 0) + (if aclCond4 (some q) line.text then 1 else 0))
        line := by
  simp only [aclLineE, need] at h
  split at h
  · exact absurd h (by simp)
  · next b3 h3 =>
    cases h
    refine ⟨b3, h3, ?_⟩
    rw [singleton_if_replicate, singleton_if_replicate, singleton_if_replicate,
      singleton_if_replicate]
    rw [← List.replicate_add, ← List.replicate_add, ← List.replicate_add]

/-! ## The bare-host capture language always parses (grammar lemmas) -/

theorem mem_ite_singleton {α : Type} {p x : α} {c : Prop} [Decidable c] :
    (p ∈ (if c then [x] else [])) ↔ c ∧ p = x := by
  by_cases h : c <;> simp [h]

theorem octetCands_mem (cs : List Char) (o rest : List Char)
    (h : (o, rest) ∈ octetCands cs) : isOctetStr o = true ∧ cs = o ++ rest := by
  match cs with
  | c0 :: c1 :: c2 :: tail =>
    simp only [octetCands, List.mem_append, mem_ite_singleton, Prod.mk.injEq] at h
    rcases h with ((((⟨hc, ho, hr⟩ | ⟨hc, ho, hr⟩) | ⟨hc, ho, hr⟩) | ⟨hc, ho, hr⟩) |
      ⟨hc, ho, hr⟩) | ⟨hc, ho, hr⟩ <;> subst ho <;> subst hr <;>
      refine ⟨?_, rfl⟩ <;>
      simp only [isOctetStr] <;>
      (try simp only [Bool.and_eq_true, Bool.or_eq_true, decide_eq_true_eq] at hc ⊢) <;>
      tauto
  | [c0, c1] =>
    simp only [octetCands, List.mem_append, mem_ite_singleton, Prod.mk.injEq] at h
    rcases h with (⟨hc, ho, hr⟩ | ⟨hc, ho, hr⟩) | ⟨hc, ho, hr⟩ <;> subst ho <;> subst hr <;>
      refine ⟨?_, rfl⟩ <;>
      simp only [isOctetStr] <;>
      (try simp only [Bool.and_eq_true, Bool.or_eq_true, decide_eq_true_eq] at hc ⊢) <;>
      tauto
  | [c0] =>
    simp only [octetCands, mem_ite_singleton, Prod.mk.injEq] at h
    obtain ⟨hc, ho, hr⟩ := h
    subst ho; subst hr
    exact ⟨by simp [isOctetStr, hc], rfl⟩
  | [] => simp [octetCands] at h

theorem digVal_le_of_isDig {c : Char} (h : isDig c = true) : digVal c ≤ 9 := by
  simp only [isDig, Bool.and_eq_true, decide_eq_true_eq] at h
  have h2 : c.toNat ≤ 57 := h.2
  have h0 : '0'.toNat = 48 := by decide
  simp only [digVal, h0]
  omega

theorem isDig_of_bounds {c hi : Char} (h1 : '0' ≤ c) (h2 : c ≤ hi) (h3 : hi ≤ '9') :
    isDig c = true := by
  simp only [isDig, Bool.and_eq_true, decide_eq_true_eq]
  exact ⟨h1, le_trans h2 h3⟩

theorem isOctetStr_digits {o : List Char} (h : isOctetStr o = true) :
    o.all isDig = true := by
  match o with
  | [a] => simpa [isOctetStr] using h
  | [a, b] =>
    simp only [isOctetStr, Bool.or_eq_true, Bool.and_eq_true, decide_eq_true_eq] at h
    simp only [List.all_cons, List.all_nil, Bool.and_eq_true, Bool.and_true]
    rcases h with ⟨ha, hb⟩ | ⟨ha, hb⟩
    · rcases ha with ha | ha <;> subst ha <;> exact ⟨by decide, hb⟩
    · exact ⟨ha, hb⟩
  | [a, b, c] =>
    simp only [isOctetStr, Bool.or_eq_true, Bool.and_eq_true, decide_eq_true_eq] at h
    simp only [List.all_cons, List.all_nil, Bool.and_eq_true, Bool.and_true]
    rcases h with (⟨ha, hb, hc1, hc2⟩ | ⟨ha, ⟨hb1, hb2⟩, hc⟩) | ⟨ha, hb, hc⟩
    · subst ha; subst hb
      exact ⟨by decide, by decide, isDig_of_bounds hc1 hc2 (by decide)⟩
    · subst ha
      exact ⟨by decide, isDig_of_bounds hb1 hb2 (by decide), hc⟩
    · rcases ha with ha | ha <;> subst ha <;> exact ⟨by decide, hb, hc⟩
  | [] => simp [isOctetStr] at h
  | _ :: _ :: _ :: _ :: _ => simp [isOctetStr] at h

theorem isOctetStr_parse {o : List Char} (h : isOctetStr o = true) :
    parseOctetStr o = some (digitsVal o) := by
  have hd := isOctetStr_digits h
  have h0 : '0'.toNat = 48 := by decide
  have hval : digitsVal o ≤ 255 := by
    match o with
    | [a] =>
      simp only [List.all_cons, List.all_nil, Bool.and_eq_true, Bool.and_true] at hd
      have := digVal_le_of_isDig hd
      show 10 * 0 + digVal a ≤ 255
      omega
    | [a, b] =>
      simp only [List.all_cons, List.all_nil, Bool.and_eq_true, Bool.and_true] at hd
      have ha := digVal_le_of_isDig hd.1
      have hb := digVal_le_of_isDig hd.2
      show 10 * (10 * 0 + digVal a) + digVal b ≤ 255
      omega
    | [a, b, c] =>
      simp only [isOctetStr, Bool.or_eq_true, Bool.and_eq_true, decide_eq_true_eq] at h
      simp only [List.all_cons, List.all_nil, Bool.and_eq_true, Bool.and_true] at hd
      have hva := digVal_le_of_isDig hd.1
      have hvb := digVal_le_of_isDig hd.2.1
      have hvc := digVal_le_of_isDig hd.2.2
      have ht2 : '2'.toNat = 50 := by decide
      have ht5 : '5'.toNat = 53 := by decide
      show 10 * (10 * (10 * 0 + digVal a) + digVal b) + digVal c ≤ 255
      rcases h with (⟨ha, hb, hc1, hc2⟩ | ⟨ha, ⟨hb1, hb2⟩, hc⟩) | ⟨ha, hb, hc⟩
      · subst ha; subst hb
        have hcl : 48 ≤ c.toNat := hc1
        have hch : c.toNat ≤ 53 := hc2
        simp only [digVal, h0, ht2, ht5] at hvc ⊢
        omega
      · subst ha
        have hbl : 48 ≤ b.toNat := hb1
        have hbh : b.toNat ≤ 52 := hb2
        simp only [digVal, h0, ht2] at hvb hvc ⊢
        omega
      · have h1 : digVal a ≤ 1 := by
          rcases ha with ha | ha <;> subst ha <;> decide
        omega
    | [] => simp [isOctetStr] at h
    | _ :: _ :: _ :: _ :: _ => simp [isOctetStr] at h
  have hlen : o.length ≤ 3 := by
    match o with
    | [a] => simp
    | [a, b] => simp
    | [a, b, c] => simp
    | [] => simp [isOctetStr] at h
    | _ :: _ :: _ :: _ :: _ => simp [isOctetStr] at h
  have hne : o ≠ [] := by
    intro he
    subst he
    simp [isOctetStr] at h
  simp [parseOctetStr, parseNatDigits, hlen, hne, hd, hval]

theorem firstSome_mem {α β : Type} (l : List α) (f : α → Option β) (b : β)
    (h : firstSome l f = some b) : ∃ a ∈ l, f a = some b := by
  induction l with
  | nil => simp [firstSome] at h
  | cons a as ih =>
    simp only [firstSome] at h
    split at h
    · next hb => cases h; exact ⟨a, List.mem_cons_self a as, hb⟩
    · obtain ⟨a2, hm, hf⟩ := ih h
      exact ⟨a2, List.mem_cons_of_mem _ hm, hf⟩

theorem splitOnChar_ne_nil (sep : Char) (cs : List Char) : splitOnChar sep cs ≠ [] := by
  cases cs with
  | nil => simp [splitOnChar]
  | cons c rest =>
    simp only [splitOnChar]
    split <;> split <;> simp

theorem splitOnChar_sepFree (sep : Char) (cs : List Char)
    (h : ∀ c ∈ cs, ¬ c = sep) : splitOnChar sep cs = [cs] := by
  induction cs with
  | nil => rfl
  | cons c rest ih =>
    have hc : ¬ c = sep := h c (List.mem_cons_self c rest)
    have ih2 := ih (fun x hx => h x (List.mem_cons_of_mem _ hx))
    simp only [splitOnChar, ih2]
    simp [hc]

theorem splitOnChar_append (sep : Char) (xs ys : List Char)
    (h : ∀ c ∈ xs, ¬ c = sep) :
    splitOnChar sep (xs ++ sep :: ys) = xs :: splitOnChar sep ys := by
  induction xs with
  | nil =>
    simp only [List.nil_append, splitOnChar]
    have := splitOnChar_ne_nil sep ys
    split
    · next he => exact absurd he this
    · next g gs he => simp [he]
  | cons x xs ih =>
    have hx : ¬ x = sep := h x (List.mem_cons_self x xs)
    have ih2 := ih (fun c hc => h c (List.mem_cons_of_mem _ hc))
    simp only [List.cons_append, splitOnChar, List.append_eq]
    rw [ih2]
    simp [hx]

theorem all_isDig_ne {o : List Char} (h : o.all isDig = true) {d : Char}
    (hd : isDig d = false) : ∀ c ∈ o, ¬ c = d := by
  intro c hc he
  subst he
  rw [List.all_eq_true] at h
  rw [h c hc] at hd
  cases hd

theorem all_isDig_digOrDot {o : List Char} (h : o.all isDig = true) :
    o.all isDigOrDot = true := by
  rw [List.all_eq_true] at h ⊢
  intro c hc
  simp [isDigOrDot, h c hc]

theorem quadFrom_ok :
    ∀ (k : Nat) (cs q rem : List Char), quadFrom k cs = some (q, rem) →
      (splitOnChar '.' q).length = k ∧ (splitOnChar '.' q).all isOctetStr = true ∧
      q.all isDigOrDot = true ∧ cs = q ++ rem := by
  intro k
  induction k using Nat.strong_induction_on with
  | _ k ih =>
    intro cs q rem h
    match k with
    | 0 => simp [quadFrom] at h
    | 1 =>
      simp only [quadFrom] at h
      obtain ⟨p, hm, hp⟩ := firstSome_mem _ _ _ h
      cases hp
      obtain ⟨ho, hcs⟩ := octetCands_mem cs q rem hm
      have hdig := isOctetStr_digits ho
      have hsplit : splitOnChar '.' q = [q] :=
        splitOnChar_sepFree '.' q (all_isDig_ne hdig (by decide))
      refine ⟨by simp [hsplit], by simp [hsplit, ho], all_isDig_digOrDot hdig, hcs⟩
    | k' + 2 =>
      simp only [quadFrom] at h
      obtain ⟨p, hm, hp⟩ := firstSome_mem _ _ _ h
      obtain ⟨o, orest⟩ := p
      simp only at hp
      match orest with
      | [] => exact absurd hp (by simp)
      | c :: rest2 =>
        simp only at hp
        split at hp
        · next hc =>
          subst hc
          split at hp
          · next q' rem' hq' =>
            rw [Option.some.injEq, Prod.mk.injEq] at hp
            obtain ⟨hq, hrem⟩ := hp
            subst hq
            subst hrem
            obtain ⟨ho, hcs⟩ := octetCands_mem cs o ('.' :: rest2) hm
            obtain ⟨ihl, iha, ihd, ihcs⟩ := ih (k' + 1) (by omega) rest2 q' rem' hq'
            have hdig := isOctetStr_digits ho
            have hsplit : splitOnChar '.' (o ++ '.' :: q') = o :: splitOnChar '.' q' :=
              splitOnChar_append '.' o q' (all_isDig_ne hdig (by decide))
            refine ⟨by simp [hsplit, ihl], by simp [hsplit, ho, iha], ?_, ?_⟩
            · rw [List.all_eq_true]
              intro x hx
              rcases List.mem_append.mp hx with hx | hx
              · rw [List.all_eq_true] at hdig
                simp [isDigOrDot, hdig x hx]
              · rcases List.mem_cons.mp hx with hx | hx
                · subst hx; decide
                · rw [List.all_eq_true] at ihd
                  exact ihd x hx
            · rw [hcs, ihcs]
              simp
          · exact absurd hp (by simp)
        · exact absurd hp (by simp)


theorem contains_eq_false_of_all {q : List Char} {p : Char → Bool} (h : q.all p = true)
    {d : Char} (hd : p d = false) : q.contains d = false := by
  rw [List.all_eq_true] at h
  by_contra hc
  rw [Bool.not_eq_false] at hc
  have hm : d ∈ q := by simpa using hc
  rw [h d hm] at hd
  cases hd

theorem quadStr_parseQuad {q : List Char} (hl : (splitOnChar '.' q).length = 4)
    (ha : (splitOnChar '.' q).all isOctetStr = true) : ∃ n, parseQuadAddr q = some n := by
  rcases hsp : splitOnChar '.' q with _ | ⟨a, _ | ⟨b, _ | ⟨c, _ | ⟨d, _ | ⟨e, t⟩⟩⟩⟩⟩ <;>
    rw [hsp] at hl <;> simp at hl
  rw [hsp] at ha
  simp only [List.all_cons, List.all_nil, Bool.and_eq_true, Bool.and_true] at ha
  obtain ⟨ha1, ha2, ha3, ha4⟩ := ha
  refine ⟨((digitsVal a * 256 + digitsVal b) * 256 + digitsVal c) * 256 + digitsVal d, ?_⟩
  simp only [parseQuadAddr, hsp, isOctetStr_parse ha1, isOctetStr_parse ha2,
    isOctetStr_parse ha3, isOctetStr_parse ha4]

theorem quadStr_parseIPv4 {q : List Char} (hd : q.all isDigOrDot = true)
    (hl : (splitOnChar '.' q).length = 4) (ha : (splitOnChar '.' q).all isOctetStr = true) :
    (parseIPv4Obj (String.mk q)).isSome = true := by
  obtain ⟨n, hn⟩ := quadStr_parseQuad hl ha
  have hsp : q.contains ' ' = false := contains_eq_false_of_all hd (by decide)
  have hsl : q.contains '/' = false := contains_eq_false_of_all hd (by decide)
  have hdata : (String.mk q).data = q := rfl
  rw [parseIPv4Obj]
  simp only [hdata, hsp, hsl, Bool.false_eq_true, if_false, hn]
  rfl

theorem matchQuad_parses {cs q rem : List Char} (h : matchQuad cs = some (q, rem)) :
    (parseIPv4Obj (String.mk q)).isSome = true ∧ q.all isDigOrDot = true := by
  obtain ⟨hl, ha, hd, _⟩ := quadFrom_ok 4 cs q rem h
  exact ⟨quadStr_parseIPv4 hd hl ha, hd⟩

theorem matchBareHost_parses {cs : List Char} {cap : String} {rem : List Char}
    (h : matchBareHost cs = some (cap, rem)) : (parseIPv4Obj cap).isSome = true := by
  simp only [matchBareHost] at h
  split at h
  · exact absurd h (by simp)
  · next rest ha =>
    split at h
    · next q rem2 hq =>
      rw [Option.some.injEq, Prod.mk.injEq] at h
      obtain ⟨hc, _⟩ := h
      subst hc
      exact (matchQuad_parses hq).1
    · exact absurd h (by simp)

theorem matchBareSubnet_shape {cs : List Char} {cap : String} {rem : List Char}
    (h : matchBareSubnet cs = some (cap, rem)) :
    ∃ q1 q2, cap = String.mk (q1 ++ ' ' :: q2) ∧
      parseIPv4Obj cap = pairAsMaskedNetwork q1 q2 := by
  simp only [matchBareSubnet] at h
  split at h
  · next q1 c rest hq1 =>
    split at h
    · next hc =>
      subst hc
      split at h
      · next q2 rem2 hq2 =>
        rw [Option.some.injEq, Prod.mk.injEq] at h
        obtain ⟨hcap, _⟩ := h
        subst hcap
        obtain ⟨hl1, ha1, hd1, _⟩ := quadFrom_ok 4 cs q1 (' ' :: rest) hq1
        obtain ⟨hl2, ha2, hd2, _⟩ := quadFrom_ok 4 rest q2 rem2 hq2
        refine ⟨q1, q2, rfl, ?_⟩
        have hno1 : ∀ c ∈ q1, ¬ c = ' ' := by
          intro c hc he
          subst he
          rw [List.all_eq_true] at hd1
          have := hd1 ' ' hc
          simp [isDigOrDot, isDig] at this
        have hno2 : ∀ c ∈ q2, ¬ c = ' ' := by
          intro c hc he
          subst he
          rw [List.all_eq_true] at hd2
          have := hd2 ' ' hc
          simp [isDigOrDot, isDig] at this
        have hsp : splitOnChar ' ' (q1 ++ ' ' :: q2) = [q1, q2] := by
          rw [splitOnChar_append ' ' q1 q2 hno1, splitOnChar_sepFree ' ' q2 hno2]
        have hdata : (String.mk (q1 ++ ' ' :: q2)).data = q1 ++ ' ' :: q2 := rfl
        have hcont : (q1 ++ ' ' :: q2).contains ' ' = true := by
          simp [List.contains_eq_any_beq]
        rw [parseIPv4Obj]
        simp only [hdata, hcont, if_true, hsp, pairAsMaskedNetwork]
      · exact absurd h (by simp)
    · exact absurd h (by simp)
  · exact absurd h (by simp)

theorem scanAux_sound {f : List Char → Option (String × List Char)} (P : String → Prop)
    (hf : ∀ cs cap rem, f cs = some (cap, rem) → P cap) :
    ∀ (fuel : Nat) (cs : List Char), ∀ s ∈ scanAux f fuel cs, P s := by
  intro fuel
  induction fuel with
  | zero => intro cs s hs; simp [scanAux] at hs
  | succ n ih =>
    intro cs s hs
    match cs with
    | [] => simp [scanAux] at hs
    | c :: rest =>
      simp only [scanAux] at hs
      split at hs
      · next cap rem hm =>
        rcases List.mem_cons.mp hs with he | hs2
        · subst he
          exact hf _ _ _ hm
        · exact ih rem s hs2
      · exact ih rest s hs

theorem bareHostScan_parses (t : String) :
    ∀ s ∈ bareHostScan t, (parseIPv4Obj s).isSome = true := by
  intro s hs
  exact scanAux_sound (fun s => (parseIPv4Obj s).isSome = true)
    (fun cs cap rem hm => matchBareHost_parses hm) t.length t.data s hs

theorem bareSubnetScan_shape (t : String) :
    ∀ s ∈ bareSubnetScan t, ∃ q1 q2, s = String.mk (q1 ++ ' ' :: q2) ∧
      parseIPv4Obj s = pairAsMaskedNetwork q1 q2 := by
  intro s hs
  exact scanAux_sound
    (fun s => ∃ q1 q2, s = String.mk (q1 ++ ' ' :: q2) ∧
      parseIPv4Obj s = pairAsMaskedNetwork q1 q2)
    (fun cs cap rem hm => matchBareSubnet_shape hm) t.length t.data s hs

theorem cond3Go_isOk (q : IPv4Obj) :
    ∀ (l : List String), (∀ s ∈ l, (parseIPv4Obj s).isSome = true) →
      ∃ b, cond3Go (some q) l = .ok b := by
  intro l
  induction l with
  | nil => intro _; exact ⟨false, rfl⟩
  | cons ip rest ih =>
    intro h
    have hip := h ip (List.mem_cons_self ip rest)
    rw [Option.isSome_iff_exists] at hip
    obtain ⟨a, ha⟩ := hip
    obtain ⟨b, hb⟩ := ih (fun s hs => h s (List.mem_cons_of_mem _ hs))
    by_cases hin : ipv4In a q = true
    · exact ⟨true, by simp [cond3Go, ha, hin]⟩
    · refine ⟨b, ?_⟩
      simp only [cond3Go, ha]
      rw [if_neg hin]
      exact hb

theorem cond4Go_iff (q : IPv4Obj) :
    ∀ (l : List String), cond4Go (some q) l = true ↔
      ∃ s ∈ l, ∃ a, parseIPv4Obj s = some a ∧ ipv4In a q = true := by
  intro l
  induction l with
  | nil => simp [cond4Go]
  | cons ip rest ih =>
    simp only [cond4Go]
    split
    · next hp =>
      rw [ih]
      constructor
      · rintro ⟨s, hm, a, hpa, hin⟩
        exact ⟨s, List.mem_cons_of_mem _ hm, a, hpa, hin⟩
      · rintro ⟨s, hm, a, hpa, hin⟩
        rcases List.mem_cons.mp hm with he | hm2
        · subst he
          rw [hp] at hpa
          cases hpa
        · exact ⟨s, hm2, a, hpa, hin⟩
    · next addr hp =>
      by_cases hin : ipv4In addr q = true
      · rw [if_pos hin]
        simp only [true_iff]
        exact ⟨ip, List.mem_cons_self ip rest, addr, hp, hin⟩
      · rw [if_neg hin]
        rw [ih]
        constructor
        · rintro ⟨s, hm, a, hpa, hin2⟩
          exact ⟨s, List.mem_cons_of_mem _ hm, a, hpa, hin2⟩
        · rintro ⟨s, hm, a, hpa, hin2⟩
          rcases List.mem_cons.mp hm with he | hm2
          · subst he
            rw [hp] at hpa
            cases hpa
            exact absurd hin2 hin
          · exact ⟨s, hm2, a, hpa, hin2⟩

theorem matchObjChildren_isOk (q : IPv4Obj) :
    ∀ (cs : List CfgLine),
      (cs.all fun c =>
        match objChildIp c with
        | none => true
        | some s => (parseIPv4Obj s).isSome) = true →
      ∃ b, matchObjChildren q cs = .ok b := by
  intro cs
  induction cs with
  | nil => intro _; exact ⟨false, rfl⟩
  | cons c rest ih =>
    intro h
    simp only [List.all_cons, Bool.and_eq_true] at h
    obtain ⟨b, hb⟩ := ih h.2
    have hc := h.1
    cases h1 : objChildIp c with
    | none => exact ⟨b, by simp only [matchObjChildren, h1]; exact hb⟩
    | some s =>
      rw [h1] at hc
      simp only at hc
      rw [Option.isSome_iff_exists] at hc
      obtain ⟨addr, ha⟩ := hc
      by_cases h3 : ipv4In addr q = true
      · exact ⟨true, by simp [matchObjChildren, h1, ha, h3]⟩
      · by_cases h4 : ipv4In q addr = true
        · exact ⟨true, by simp [matchObjChildren, h1, ha, h3, h4]⟩
        · refine ⟨b, ?_⟩
          simp only [matchObjChildren, h1, ha]
          rw [if_neg h3, if_neg h4]
          exact hb

theorem match_network_objects_isOk (q : IPv4Obj) :
    ∀ (objs : List CfgLine),
      (objs.all fun o =>
        o.children.all fun c =>
          match objChildIp c with
          | none => true
          | some s => (parseIPv4Obj s).isSome) = true →
      ∃ r, match_network_objects q objs = .ok r := by
  intro objs
  induction objs with
  | nil => intro _; exact ⟨[], rfl⟩
  | cons obj rest ih =>
    intro h
    simp only [List.all_cons, Bool.and_eq_true] at h
    obtain ⟨b, hb⟩ := matchObjChildren_isOk q obj.children h.1
    obtain ⟨r, hr⟩ := ih h.2
    exact ⟨if b then obj :: r else r, by simp [match_network_objects, hb, hr]⟩

theorem groupChildStep_isOk (q : IPv4Obj) (mo : List CfgLine) (c : CfgLine)
    (h : (match RE_NETWORK_OBJECT_OBJECT c.text with
          | some _ => true
          | none =>
            match RE_NETWORK_OBJECT_HOST c.text with
            | none => true
            | some s => (parseIPv4Obj s).isSome) = true) :
    ∃ b, groupChildStep q mo c = .ok b := by
  cases h1 : RE_NETWORK_OBJECT_OBJECT c.text with
  | some n => exact ⟨is_substring_of_obj_list n mo, by simp [groupChildStep, h1]⟩
  | none =>
    rw [h1] at h
    simp only at h
    cases h2 : RE_NETWORK_OBJECT_HOST c.text with
    | none => exact ⟨false, by simp [groupChildStep, h1, h2]⟩
    | some s =>
      rw [h2] at h
      simp only at h
      rw [Option.isSome_iff_exists] at h
      obtain ⟨addr, ha⟩ := h
      exact ⟨ipv4In addr q, by simp [groupChildStep, h1, h2, ha]⟩

theorem groupChildrenKept_isOk (q : IPv4Obj) (mo : List CfgLine) :
    ∀ (cs : List CfgLine),
      (cs.all fun c =>
        match RE_NETWORK_OBJECT_OBJECT c.text with
        | some _ => true
        | none =>
          match RE_NETWORK_OBJECT_HOST c.text with
          | none => true
          | some s => (parseIPv4Obj s).isSome) = true →
      ∃ r, groupChildrenKept q mo cs = .ok r := by
  intro cs
  induction cs with
  | nil => intro _; exact ⟨[], rfl⟩
  | cons c rest ih =>
    intro h
    simp only [List.all_cons, Bool.and_eq_true] at h
    obtain ⟨b, hb⟩ := groupChildStep_isOk q mo c h.1
    obtain ⟨r, hr⟩ := ih h.2
    exact ⟨if b then c :: r else r, by simp [groupChildrenKept, hb, hr]⟩

theorem match_network_object_groups_isOk (q : IPv4Obj) (mo : List CfgLine) :
    ∀ (groups : List CfgLine),
      (groups.all fun g =>
        g.children.all fun c =>
          match RE_NETWORK_OBJECT_OBJECT c.text with
          | some _ => true
          | none =>
            match RE_NETWORK_OBJECT_HOST c.text with
            | none => true
            | some s => (parseIPv4Obj s).isSome) = true →
      ∃ r, match_network_object_groups q groups mo = .ok r := by
  intro groups
  induction groups with
  | nil => intro _; exact ⟨[], rfl⟩
  | cons g rest ih =>
    intro h
    simp only [List.all_cons, Bool.and_eq_true] at h
    obtain ⟨kept, hk⟩ := groupChildrenKept_isOk q mo g.children h.1
    obtain ⟨r, hr⟩ := ih h.2
    exact ⟨if kept.isEmpty then r else CfgLine.mk g.text kept :: r,
      by simp [match_network_object_groups, hk, hr]⟩

theorem aclLineE_isOk (q : IPv4Obj) (mo mg : List CfgLine) (line : CfgLine) :
    ∃ hits, aclLineE (some q) (some mo) (some mg) line = .ok hits := by
  obtain ⟨b3, hb3⟩ := cond3Go_isOk q (bareHostScan line.text) (bareHostScan_parses line.text)
  refine ⟨(if aclCond1 mo line.text then [line] else []) ++
    (if aclCond2 mg line.text then [line] else []) ++ (if b3 then [line] else []) ++
    (if aclCond4 (some q) line.text then [line] else []), ?_⟩
  simp only [aclLineE, need, aclCond3, hb3]

theorem aclStage_isOk (q : IPv4Obj) (mo mg : List CfgLine) :
    ∀ (lines : List CfgLine), ∃ r, aclStage (some q) (some mo) (some mg) lines = .ok r := by
  intro lines
  induction lines with
  | nil => exact ⟨[], rfl⟩
  | cons line rest ih =>
    obtain ⟨hits, hh⟩ := aclLineE_isOk q mo mg line
    obtain ⟨r, hr⟩ := ih
    exact ⟨hits ++ r, by simp [aclStage, hh, hr]⟩

/-! ## Frame lemmas for the store model -/

theorem take_set_of_le {α : Type} {l : List α} {a : α} :
    ∀ {n m : Nat}, m ≤ n → (l.set n a).take m = l.take m := by
  induction l with
  | nil => intro n m _; simp
  | cons x xs ih =>
    intro n m h
    cases n with
    | zero =>
      have : m = 0 := Nat.le_zero.mp h
      subst this
      simp
    | succ n2 =>
      cases m with
      | zero => simp
      | succ m2 =>
        simp only [List.set_cons_succ, List.take_succ_cons]
        rw [ih (Nat.le_of_succ_le_succ h)]

theorem add_child_length (store : List LineNode) (pid cid : Nat) :
    (add_child store pid cid).length = store.length := by
  rw [add_child]
  split
  · rfl
  · simp

theorem add_child_take {store : List LineNode} {pid cid : Nat} {L : Nat} (hL : L ≤ pid) :
    (add_child store pid cid).take L = store.take L := by
  rw [add_child]
  split
  · rfl
  · exact take_set_of_le hL

theorem foldl_add_child (pid : Nat) :
    ∀ (kept : List Nat) (store : List LineNode),
      (kept.foldl (fun st cid => add_child st pid cid) store).length = store.length ∧
      ∀ L ≤ pid, (kept.foldl (fun st cid => add_child st pid cid) store).take L =
        store.take L := by
  intro kept
  induction kept with
  | nil => intro store; exact ⟨rfl, fun _ _ => rfl⟩
  | cons cid rest ih =>
    intro store
    simp only [List.foldl_cons]
    obtain ⟨hlen, htake⟩ := ih (add_child store pid cid)
    refine ⟨by rw [hlen, add_child_length], ?_⟩
    intro L hL
    rw [htake L hL, add_child_take hL]

theorem matchGroupsSt_frame (q : IPv4Obj) (mo : List CfgLine) :
    ∀ (gids : List Nat) (store store' : List LineNode) (ids : List Nat),
      matchGroupsSt q mo store gids = .ok (store', ids) →
      store.length ≤ store'.length ∧ store'.take store.length = store ∧
      ∀ i ∈ ids, store.length ≤ i := by
  intro gids
  induction gids with
  | nil =>
    intro store store' ids h
    simp only [matchGroupsSt] at h
    rw [Except.ok.injEq, Prod.mk.injEq] at h
    obtain ⟨h1, h2⟩ := h
    subst h1; subst h2
    exact ⟨Nat.le_refl _, List.take_length store, by simp⟩
  | cons gid rest ih =>
    intro store store' ids h
    simp only [matchGroupsSt] at h
    split at h
    · exact ih store store' ids h
    · next g hg =>
      split at h
      · exact absurd h (by simp)
      · next kept hk =>
        split at h
        · exact ih store store' ids h
        · next hne =>
          simp only [allocNode] at h
          split at h
          · exact absurd h (by simp)
          · next store3 ids2 hrec =>
            rw [Except.ok.injEq, Prod.mk.injEq] at h
            obtain ⟨h1, h2⟩ := h
            subst h1; subst h2
            obtain ⟨flen, ftake⟩ := foldl_add_child store.length kept (store ++ [⟨g.text, []⟩])
            obtain ⟨ihlen, ihtake, ihids⟩ := ih _ _ _ hrec
            have hlen2 : (kept.foldl (fun st cid => add_child st store.length cid)
                (store ++ [⟨g.text, []⟩])).length = store.length + 1 := by
              rw [flen]; simp
            have htake2 : (kept.foldl (fun st cid => add_child st store.length cid)
                (store ++ [⟨g.text, []⟩])).take store.length = store := by
              rw [ftake store.length (Nat.le_refl _)]
              have h3 := List.take_left store ([⟨g.text, []⟩] : List LineNode)
              exact h3
            refine ⟨?_, ?_, ?_⟩
            · rw [hlen2] at ihlen
              omega
            · have h1 : store3.take store.length =
                  (store3.take (store.length + 1)).take store.length := by
                rw [List.take_take]
                congr 1
                omega
              rw [h1, ← hlen2, ihtake, htake2]
            · intro i hi
              rcases List.mem_cons.mp hi with he | hi2
              · subst he; exact Nat.le_refl _
              · have h4 := ihids i hi2
                rw [hlen2] at h4
                omega

/-! ## Claims -/

/-- C1: the claim says the general, source and destination queries each run
the full object → group → ACL pipeline independently, a source-only or
destination-only run producing a complete `MatchResult`.  The code does
not: a `-d` run raises `NameError` in the group stage
(`dest_matched_groups` is read before assignment, ACL_check.py:235), and a
`-s` run raises `NameError` in the ACL stage, which unconditionally reads
the `-i` intermediates (`matched_objects`, ACL_check.py:244).  This theorem
evaluates the modelled run at both failing inputs. -/
theorem C1_source_dest_runs_crash :
    runScript exCfgAclOnly none (some "8.8.8.8") none = .error .nameError ∧
    runScript [] none none (some "8.8.8.8") = .error .nameError :=
  ⟨by rfl, by rfl⟩

/-- C2 counterexample: with query `10.0.0.5` and a configuration whose one
access-list line satisfies both condition 1 (it contains the matched
object name `WEB`) and condition 3 (it contains `host 10.0.0.5` covered by
the query), the line appears twice in `ACL_matches` — refuting "the line
appears at most once ... evaluation short-circuits on the first success". -/
theorem C2_counterexample :
    runScript exCfgDup (some "10.0.0.5") none none =
      .ok ⟨some [exObjWeb], some [], none, none, none, [exAclDup, exAclDup]⟩ :=
  by rfl

/-- C2 (amended): each of the four conditions short-circuits within its own
scan only, so one access-list line is appended once per satisfied
condition: the emitted hits for a line are `k` copies of the line, where
`k` is the number of conditions (among the four) that hold. -/
theorem C2_amended_per_condition :
    ∀ (q : IPv4Obj) (mo mg : List CfgLine) (line : CfgLine) (hits : List CfgLine),
      aclLineE (some q) (some mo) (some mg) line = .ok hits →
      ∃ b3, aclCond3 (some q) line.text = .ok b3 ∧
        hits = List.replicate
          ((if aclCond1 mo line.text then 1 else 0) +
            (if aclCond2 mg line.text then 1 else 0) +
            (if b3 = true then 1 else 0) +
            (if aclCond4 (some q) line.text then 1 else 0)) line :=
  fun q mo mg line hits h => aclLineE_ok q mo mg line hits h

/-- Witness for C2 (amended): the duplicated line of the counterexample
satisfies conditions 1 and 3, and is emitted exactly twice. -/
theorem C2_amended_witness :
    ∃ b3, aclCond3 (some qHost5) exAclDup.text = .ok b3 ∧
      [exAclDup, exAclDup] = List.replicate
        ((if aclCond1 [exObjWeb] exAclDup.text then 1 else 0) +
          (if aclCond2 [] exAclDup.text then 1 else 0) +
          (if b3 = true then 1 else 0) +
          (if aclCond4 (some qHost5) exAclDup.text then 1 else 0)) exAclDup :=
  C2_amended_per_condition qHost5 [exObjWeb] [] exAclDup [exAclDup, exAclDup] (by rfl)

/-- C3: when `match_network_objects` returns normally, its output is
exactly the objects (once each, in input order) that have a child whose
extracted address (host pattern first, subnet as fallback) is
bidirectionally contained with the query; and scanning stops at the first
covering child — a covering head child makes the scan succeed with `true`
no matter what follows it. -/
theorem C3_network_object_matching :
    ∀ (q : IPv4Obj) (objs res : List CfgLine),
      (match_network_objects q objs = .ok res →
        res = objs.filter (fun o => o.children.any (childCoversQuery q))) ∧
      ∀ (c : CfgLine) (rest : List CfgLine), childCoversQuery q c = true →
        matchObjChildren q (c :: rest) = .ok true := by
  intro q objs res
  refine ⟨fun h => match_network_objects_ok q objs res h, ?_⟩
  intro c rest hc
  rw [childCoversQuery] at hc
  cases h1 : objChildIp c with
  | none => rw [h1] at hc; cases hc
  | some s =>
    rw [h1] at hc
    simp only at hc
    cases h2 : parseIPv4Obj s with
    | none => rw [h2] at hc; cases hc
    | some addr =>
      rw [h2] at hc
      simp only at hc
      by_cases h4 : ipv4In addr q = true
      · simp [matchObjChildren, h1, h2, h4]
      · simp only [contains_or_is_contained, Bool.or_eq_true] at hc
        rcases hc with h3 | h3
        · exact absurd h3 h4
        · simp [matchObjChildren, h1, h2, h4, h3]

/-- Witness for C3: `WEB` (host `10.0.0.5`) is matched by query
`10.0.0.5/32` while `OTHER` is not, and a covering first child
short-circuits past a child whose token would not even parse. -/
theorem C3_witness :
    [exObjWeb] =
      [exObjWeb, exObjOther].filter (fun o => o.children.any (childCoversQuery qHost5)) ∧
    matchObjChildren qHost5 (CfgLine.mk " host 10.0.0.5" [] :: [exBadChild]) = .ok true :=
  ⟨(C3_network_object_matching qHost5 [exObjWeb, exObjOther] [exObjWeb]).1 (by rfl),
   (C3_network_object_matching qHost5 [] []).2 (CfgLine.mk " host 10.0.0.5" []) [exBadChild]
     (by rfl)⟩

/-- C4 counterexample: a group child `network-object host 10.0.0.0/8`
whose address satisfies the bidirectional containment test against query
`10.0.0.5` ("the same containment test" of the claim), yet the group is
not emitted: the code tests inline-host children one-directionally
(`addr in subnet` only, ACL_check.py:191). -/
theorem C4_counterexample :
    RE_NETWORK_OBJECT_HOST " network-object host 10.0.0.0/8" = some "10.0.0.0/8" ∧
    parseIPv4Obj "10.0.0.0/8" = some ⟨167772160, 8⟩ ∧
    contains_or_is_contained ⟨167772160, 8⟩ qHost5 = true ∧
    match_network_object_groups qHost5 [exGrpWide] [] = .ok [] :=
  ⟨by rfl, by rfl, by rfl, by rfl⟩

/-- C4 (amended): when `match_network_object_groups` returns normally, it
emits, per group with at least one matching child, a fresh parent carrying
exactly the matching children in order — where a reference child matches
via the substring test and an inline-host child matches exactly when the
query's range contains the child's address (one direction only). -/
theorem C4_amended_group_matching :
    ∀ (q : IPv4Obj) (mo groups res : List CfgLine),
      match_network_object_groups q groups mo = .ok res →
      res = groups.filterMap (fun g =>
        if (g.children.filter (groupChildMatches q mo)).isEmpty then none
        else some (CfgLine.mk g.text (g.children.filter (groupChildMatches q mo)))) :=
  fun q mo groups res h => match_network_object_groups_ok q mo groups res h

/-- Witness for C4 (amended): the wide-host group is dropped, the good
group is emitted with exactly its one matching child. -/
theorem C4_amended_witness :
    [CfgLine.mk "object-group network H" [CfgLine.mk " network-object host 10.0.0.5" []]] =
      [exGrpWide, exGrpGood].filterMap (fun g =>
        if (g.children.filter (groupChildMatches qHost5 [])).isEmpty then none
        else some (CfgLine.mk g.text (g.children.filter (groupChildMatches qHost5 [])))) :=
  C4_amended_group_matching qHost5 [] [exGrpWide, exGrpGood]
    [CfgLine.mk "object-group network H" [CfgLine.mk " network-object host 10.0.0.5" []]]
    (by rfl)

/-- C5: when condition 3 evaluates without an exception, it holds exactly
when some `host <quad>` capture of the line parses to an address whose
range the query's range contains (`IPv4Obj(IP) in subnet`,
ACL_check.py:258); the right-hand side mentions only that one direction,
so a host token covering a larger query never triggers the condition. -/
theorem C5_bare_host_strict_containment :
    ∀ (q : IPv4Obj) (t : String) (b : Bool), aclCond3 (some q) t = .ok b →
      (b = true ↔ ∃ ip ∈ bareHostScan t, ∃ a, parseIPv4Obj ip = some a ∧ ipv4In a q = true) :=
  fun q t b h => cond3Go_ok q (bareHostScan t) b h

/-- Witness for C5: condition 3 fires on the duplicate-example line, and
the theorem produces the covered capture. -/
theorem C5_witness :
    ∃ ip ∈ bareHostScan exAclDup.text, ∃ a, parseIPv4Obj ip = some a ∧ ipv4In a qHost5 = true :=
  (C5_bare_host_strict_containment qHost5 exAclDup.text true (by rfl)).mp rfl

/-- C6 counterexample: in `access-list X permit ip 10.0.0.3 255.255.255.0
any` with query `10.0.0.3`, the pair's first address parsed on its own
(`10.0.0.3`, a /32) is covered by the query, so the claim says condition 4
holds; but the code hands the whole pair to `IPv4Obj`, which parses it as
the masked network `10.0.0.0/24`, not covered by the /32 query — condition
4 is false and the line is not matched. -/
theorem C6_counterexample :
    bareSubnetScan exAclPair.text = ["10.0.0.3 255.255.255.0"] ∧
    parseIPv4Obj "10.0.0.3" = some qHost3 ∧
    ipv4In qHost3 qHost3 = true ∧
    aclCond4 (some qHost3) exAclPair.text = false ∧
    runScript [exAclPair] (some "10.0.0.3") none none =
      .ok ⟨some [], some [], none, none, none, []⟩ :=
  ⟨by rfl, by rfl, by rfl, by rfl, by rfl⟩

/-- C6 (amended): condition 4 holds exactly when some captured
`<quad> <quad>` pair, parsed as one `IPv4Obj`, yields a network covered by
the query; and every captured pair parses as the first address masked by
the second address read as a netmask or, failing that, a hostmask
(`pairAsMaskedNetwork`), parse failures (a second address that is neither,
such as `255.0.255.0`) making the candidate not match. -/
theorem C6_amended_bare_subnet :
    ∀ (q : IPv4Obj) (t : String),
      (aclCond4 (some q) t = true ↔
        ∃ pr ∈ bareSubnetScan t, ∃ a, parseIPv4Obj pr = some a ∧ ipv4In a q = true) ∧
      ∀ pr ∈ bareSubnetScan t, ∃ cs1 cs2, pr = String.mk (cs1 ++ ' ' :: cs2) ∧
        parseIPv4Obj pr = pairAsMaskedNetwork cs1 cs2 :=
  fun q t => ⟨cond4Go_iff q (bareSubnetScan t), bareSubnetScan_shape t⟩

/-- Witness for C6 (amended): a netmask pair whose masked network is
inside a /24 query makes condition 4 fire; so does a hostmask (wildcard)
pair, read as `10.0.0.0/8`; and the counterexample's capture decomposes as
first-address-plus-mask. -/
theorem C6_amended_witness :
    aclCond4 (some qNet24) exAclPair24.text = true ∧
    aclCond4 (some qNet8) exAclWild.text = true ∧
    ∃ cs1 cs2, "10.0.0.3 255.255.255.0" = String.mk (cs1 ++ ' ' :: cs2) ∧
      parseIPv4Obj "10.0.0.3 255.255.255.0" = pairAsMaskedNetwork cs1 cs2 :=
  ⟨(C6_amended_bare_subnet qNet24 exAclPair24.text).1.mpr
    ⟨"10.0.0.0 255.255.255.0", by decide, qNet24, by rfl, by rfl⟩,
   (C6_amended_bare_subnet qNet8 exAclWild.text).1.mpr
    ⟨"10.0.0.0 0.255.255.255", by decide, qNet8, by rfl, by rfl⟩,
   (C6_amended_bare_subnet qNet24 exAclPair.text).2 "10.0.0.3 255.255.255.0" (by decide)⟩

/-- C7 counterexample: a configuration whose object child is
` host nope` aborts the whole run with a parse error (the `IPv4Obj` call
at ACL_check.py:160 is unguarded), although the query itself is valid —
refuting "the only fatal parse error is an invalid user-supplied query". -/
theorem C7_counterexample :
    runScript exCfgBadObj (some "1.2.3.4") none none = .error .parseError :=
  by rfl

/-- C7 (amended): parse tolerance is confined to the free-text ACL scans:
if every object child and group host child carries a parseable address
token, a general-query run completes normally whatever the access-list
texts contain (condition 3's captures always parse, condition 4 swallows
its failures); malformed tokens in object or group children, by contrast,
abort the run (see the counterexample). -/
theorem C7_amended_tolerance :
    ∀ (cfg : List CfgLine) (qs : String) (q : IPv4Obj),
      parseIPv4Obj qs = some q → cfgWellFormed cfg = true →
      ∃ r, runScript cfg (some qs) none none = .ok r := by
  intro cfg qs q hq hw
  simp only [cfgWellFormed, Bool.and_eq_true] at hw
  obtain ⟨r1, h1⟩ := match_network_objects_isOk q
    (findObjects cfg (fun t => (RE_OBJECT_NETWORK t).isSome)) hw.1
  obtain ⟨r2, h2⟩ := match_network_object_groups_isOk q r1
    (findObjects cfg (fun t => (RE_OBJECT_GROUP t).isSome)) hw.2
  obtain ⟨r3, h3⟩ := aclStage_isOk q r1 r2
    (findObjects cfg (fun t => (afterLit "access-list ".data t.data).isSome))
  refine ⟨⟨some r1, some r2, none, none, none, r3⟩, ?_⟩
  simp only [runScript, parseQueryOpt, hq, stageObjects, stageGroups, stageDestGroups,
    need, h1, h2, h3]

/-- Witness for C7 (amended): a well-formed configuration whose ACL text
contains an address-shaped pair with the non-contiguous mask
`255.0.255.0` still completes. -/
theorem C7_amended_witness :
    parseIPv4Obj "10.0.0.5" = some qHost5 ∧ cfgWellFormed exCfgTolerant = true ∧
    ∃ r, runScript exCfgTolerant (some "10.0.0.5") none none = .ok r :=
  ⟨by rfl, by rfl, C7_amended_tolerance exCfgTolerant "10.0.0.5" qHost5 (by rfl) (by rfl)⟩

/-- C8: replayed against a store giving every line an identity, the group
stage leaves every pre-existing node (text, ordered children) unchanged —
the first `store.length` entries of the output store are exactly the input
store — and every emitted matched-group identity is fresh (absent from the
original store): the derived groups are new nodes, not mutations. -/
theorem C8_no_mutation_frame :
    ∀ (q : IPv4Obj) (mo : List CfgLine) (gids : List Nat)
      (store store' : List LineNode) (ids : List Nat),
      matchGroupsSt q mo store gids = .ok (store', ids) →
      store'.take store.length = store ∧ ∀ i ∈ ids, store[i]? = none := by
  intro q mo gids store store' ids h
  obtain ⟨hlen, htake, hids⟩ := matchGroupsSt_frame q mo gids store store' ids h
  refine ⟨htake, fun i hi => ?_⟩
  exact List.getElem?_eq_none (hids i hi)

/-- Witness for C8: matching the three-node store against `10.0.0.5`
allocates one fresh group node (id 3) and leaves nodes 0-2 untouched. -/
theorem C8_witness :
    (exStore ++ [(⟨"object-group network G", [1]⟩ : LineNode)]).take exStore.length = exStore ∧
    ∀ i ∈ [3], exStore[i]? = none :=
  C8_no_mutation_frame qHost5 [] [0] exStore
    (exStore ++ [(⟨"object-group network G", [1]⟩ : LineNode)]) [3] (by rfl)

/-- C9: the bidirectional containment policy is reflexive and symmetric:
any `IPv4Obj` covers itself, and the test's value does not depend on
argument order. -/
theorem C9_containment_refl_symm :
    ∀ a b : IPv4Obj, contains_or_is_contained a a = true ∧
      contains_or_is_contained a b = contains_or_is_contained b a := by
  intro a b
  constructor
  · simp [contains_or_is_contained, ipv4In]
  · simp [contains_or_is_contained, Bool.or_comm]

/-- C10: every string the bare-ACL-host pattern captures parses under the
`IPv4Obj` model (the octet grammar only produces values 0-255), so
condition 3, whose `IPv4Obj` call is unguarded, never raises — unlike
condition 4, which needs its `try/except`. -/
theorem C10_bare_host_captures_parse :
    ∀ (q : IPv4Obj) (t : String),
      ((bareHostScan t).all fun s => (parseIPv4Obj s).isSome) = true ∧
      ∃ b, aclCond3 (some q) t = .ok b := by
  intro q t
  have hall : ∀ s ∈ bareHostScan t, (parseIPv4Obj s).isSome = true := bareHostScan_parses t
  refine ⟨?_, cond3Go_isOk q (bareHostScan t) hall⟩
  rw [List.all_eq_true]
  exact hall
